import Mathlib

/-!
# AeyeGuard MCP — verification of the security-analysis pipeline

Shallow embedding of the AeyeGuard MCP service (Python) in Lean 4:

* `src/models/data_models.py` — `SeverityLevel`, `LanguageType`,
  `SecurityIssue`, `AnalysisResult` (pydantic v2 models);
* `src/analyzers/base_analyzer.py` — `preprocess_code`, `analyze`,
  `_create_security_issues`, `_generate_summary`;
* `src/services/llm_service.py` — `parse_llm_response`;
* `src/services/language_detector.py` — `detect_language`,
  `_detect_by_extension`, `_detect_by_patterns`.

Machine-level conventions: Python strings are Lean `String`/`List Char`
(ASCII inputs; the Unicode-sensitive primitives `str.upper`, `str.lower`,
and the regex classes `\w`/`\s` are modelled on their ASCII behaviour);
`json.loads` is modelled by an executable JSON parser `jloads` following
the `json` module grammar (including its acceptance of `NaN`/`Infinity`
constants and rejection of raw control characters in strings); Python
exceptions are modelled with `Except String`/`Option`.
-/

namespace AeyeGuard

/-- `SeverityLevel` from `data_models.py` (a `str` enum with the four
values LOW/MEDIUM/HIGH/CRITICAL, declared in that order). -/
inductive SeverityLevel where
  | LOW
  | MEDIUM
  | HIGH
  | CRITICAL
deriving DecidableEq, Repr

/-- The `.value` string of a `SeverityLevel` member. -/
def SeverityLevel.value : SeverityLevel → String
  | .LOW => "LOW"
  | .MEDIUM => "MEDIUM"
  | .HIGH => "HIGH"
  | .CRITICAL => "CRITICAL"

/-- `SeverityLevel(s)` lookup by value: `some level` when `s` is one of the
four member values, `none` (Python `ValueError`) otherwise. -/
def SeverityLevel.ofValue (s : String) : Option SeverityLevel :=
  if s = "LOW" then some .LOW
  else if s = "MEDIUM" then some .MEDIUM
  else if s = "HIGH" then some .HIGH
  else if s = "CRITICAL" then some .CRITICAL
  else none

/-- `LanguageType` from `data_models.py` (a `str` enum, declared in the
order CSHARP, REACT_TYPESCRIPT, REACT_JAVASCRIPT, JAVA, UNKNOWN). -/
inductive LanguageType where
  | CSHARP
  | REACT_TYPESCRIPT
  | REACT_JAVASCRIPT
  | JAVA
  | UNKNOWN
deriving DecidableEq, Repr

/-- The `.value` string of a `LanguageType` member. -/
def LanguageType.value : LanguageType → String
  | .CSHARP => "csharp"
  | .REACT_TYPESCRIPT => "react_typescript"
  | .REACT_JAVASCRIPT => "react_javascript"
  | .JAVA => "java"
  | .UNKNOWN => "unknown"

/-- `SecurityIssue` from `data_models.py`: pydantic model with required
`str` fields `id`, `title`, `description`, required `severity`, and
optional `line_number`/`column_number` (int), `file_path`/`code_snippet`/
`remediation` (str) and `references` (list of str). -/
structure SecurityIssue where
  id : String
  title : String
  description : String
  severity : SeverityLevel
  line_number : Option Int := none
  column_number : Option Int := none
  file_path : Option String := none
  code_snippet : Option String := none
  remediation : Option String := none
  references : Option (List String) := some []
deriving DecidableEq, Repr

/-- A value stored in the `analysis_metadata` dict of an
`AnalysisResult` (the code only stores ints and strings there). -/
inductive MetaV where
  | int (n : Int)
  | str (s : String)
deriving DecidableEq, Repr

/-- `AnalysisResult` from `data_models.py`; `analysis_metadata` is the
Python dict modelled as an insertion-ordered association list. -/
structure AnalysisResult where
  language : LanguageType
  issues : List SecurityIssue
  summary : String
  analysis_metadata : List (String × MetaV)
deriving DecidableEq, Repr

/-! ## Preprocessing (`BaseSecurityAnalyzer.preprocess_code`)

The Python code applies two `re.sub` passes:

1. `re.sub(r"//.*?$", "", code, flags=re.MULTILINE)`.  Without DOTALL,
   `.` never matches a newline and the MULTILINE `$` is a zero-width
   assertion holding exactly before each `'\n'` and at end of input, so
   every match starts at a `"//"` and the lazy `.*?$` extends to the end
   of that line; scanning resumes at the untouched `'\n'`.  Hence the
   pass deletes, in each line, everything from the first `"//"` on.
2. `re.sub(r"/\*.*?\*/", replace, code, flags=re.DOTALL)` where the
   replacement is `"\n" * match.count("\n")`.  The lazy `.*?` makes each
   match run from a `"/*"` to the nearest following `"*/"`; an unclosed
   `"/*"` does not match and is left in place.

Both passes are embedded directly as character-list scans. -/

/-- Pass 1 of `preprocess_code`: at the first `"//"` of each line, drop
everything up to (but not including) the next `'\n'`. -/
def removeLineComments : List Char → List Char
  | [] => []
  | [c] => [c]
  | c1 :: c2 :: rest =>
    if c1 = '/' ∧ c2 = '/' then removeLineComments (rest.dropWhile (· ≠ '\n'))
    else c1 :: removeLineComments (c2 :: rest)
termination_by l => l.length
decreasing_by
  · have := (List.dropWhile_sublist (l := rest) (fun x => !decide (x = '\n'))).length_le
    simp_wf; omega
  · simp_wf

/-- Scan for the first `"*/"`; on success return the number of `'\n'`
inside the skipped segment and the input after the `"*/"`, with the
length bound needed for termination of the caller. -/
def findBlockClose : (l : List Char) → Option (Nat × { r : List Char // r.length ≤ l.length })
  | [] => none
  | [_] => none
  | c1 :: c2 :: rest =>
    if c1 = '*' ∧ c2 = '/' then some (0, ⟨rest, by simp; omega⟩)
    else
      match findBlockClose (c2 :: rest) with
      | none => none
      | some (n, ⟨r, hr⟩) =>
        some ((if c1 = '\n' then n + 1 else n), ⟨r, by simp at hr ⊢; omega⟩)

/-- Pass 2 of `preprocess_code`: replace each lazily-matched
`/* ... */` block by as many `'\n'` as the block contains. -/
def removeBlockComments : List Char → List Char
  | [] => []
  | [c] => [c]
  | c1 :: c2 :: rest =>
    if c1 = '/' ∧ c2 = '*' then
      match findBlockClose rest with
      | some (n, ⟨r, _⟩) => List.replicate n '\n' ++ removeBlockComments r
      | none => c1 :: c2 :: rest
    else c1 :: removeBlockComments (c2 :: rest)
termination_by l => l.length
decreasing_by
  · simp_wf; omega
  · simp_wf

/-- `BaseSecurityAnalyzer.preprocess_code`: line-comment removal followed
by block-comment removal. -/
def preprocess_code (code : String) : String :=
  ⟨removeBlockComments (removeLineComments code.data)⟩

theorem count_nl_dropWhile (l : List Char) :
    (l.dropWhile (· ≠ '\n')).count '\n' = l.count '\n' := by
  induction l with
  | nil => rfl
  | cons c rest ih =>
    by_cases hc : c = '\n'
    · subst hc; rw [List.dropWhile_cons, if_neg (by simp)]
    · rw [List.dropWhile_cons, if_pos (by simp [hc]), ih, List.count_cons]
      simp [hc]

theorem removeLineComments_count (l : List Char) :
    (removeLineComments l).count '\n' = l.count '\n' := by
  induction l using removeLineComments.induct with
  | case1 => simp [removeLineComments]
  | case2 c => simp [removeLineComments]
  | case3 c1 c2 rest hif ih =>
    rw [removeLineComments, if_pos hif]
    rw [ih, count_nl_dropWhile]
    obtain ⟨h1, h2⟩ := hif
    simp [List.count_cons, h1, h2]
  | case4 c1 c2 rest hif ih =>
    rw [removeLineComments, if_neg hif]
    simp [List.count_cons, ih]

theorem findBlockClose_count :
    ∀ (l : List Char) (n : Nat) (r : List Char) (h : r.length ≤ l.length),
      findBlockClose l = some (n, ⟨r, h⟩) → l.count '\n' = n + r.count '\n' := by
  intro l
  induction l using findBlockClose.induct with
  | case1 => intro n r h heq; simp [findBlockClose] at heq
  | case2 c => intro n r h heq; simp [findBlockClose] at heq
  | case3 c1 c2 rest hif =>
    intro n r h heq
    rw [findBlockClose, if_pos hif] at heq
    obtain ⟨h1, h2⟩ := hif
    simp at heq
    obtain ⟨hn, hr⟩ := heq
    subst hn; subst hr
    simp [List.count_cons, h1, h2]
  | case4 c1 c2 rest hif hfc ih =>
    intro n r h heq
    rw [findBlockClose, if_neg hif, hfc] at heq
    simp at heq
  | case5 c1 c2 rest hif n' r' hr' hfc ih =>
    intro n r h heq
    rw [findBlockClose, if_neg hif, hfc] at heq
    simp at heq
    obtain ⟨hn, hrr⟩ := heq
    have hcnt := ih n' r' hr' hfc
    subst hrr
    simp [List.count_cons] at hcnt ⊢
    by_cases hc : c1 = '\n' <;> simp [hc] at hn ⊢ <;> omega

theorem removeBlockComments_count (l : List Char) :
    (removeBlockComments l).count '\n' = l.count '\n' := by
  induction l using removeBlockComments.induct with
  | case1 => simp [removeBlockComments]
  | case2 c => simp [removeBlockComments]
  | case3 c1 c2 rest hif n r hr hfc ih =>
    rw [removeBlockComments, if_pos hif, hfc]
    obtain ⟨h1, h2⟩ := hif
    have hcnt := findBlockClose_count rest n r hr hfc
    simp [List.count_cons, h1, h2, ih, hcnt]
  | case4 c1 c2 rest hif hfc =>
    rw [removeBlockComments, if_pos hif, hfc]
  | case5 c1 c2 rest hif ih =>
    rw [removeBlockComments, if_neg hif]
    simp [List.count_cons, ih]


/-- C8: for every input code text, `preprocess_code` (which strips
single-line and block comments) returns output with exactly the same
number of newline characters as the input. -/
theorem C8_preprocess_preserves_newline_count (code : String) :
    (preprocess_code code).data.count '\n' = code.data.count '\n' := by
  show (removeBlockComments (removeLineComments code.data)).count '\n' = _
  rw [removeBlockComments_count, removeLineComments_count]

/-! ## A model of `json.loads` (Python `json` module)

`parse_llm_response` depends on `json.loads`.  We model it by an
executable recursive-descent parser for the `json` module's grammar:
optional whitespace (space, tab, newline, carriage return) around a
single value; values are objects, arrays, strings (with escapes, raw
control characters rejected), numbers (`-?(0|[1-9]\d*)(\.\d+)?`
`([eE][+-]?\d+)?`), `true`, `false`, `null`, and the non-standard
constants `NaN`, `Infinity`, `-Infinity` that `json.loads` accepts by
default.  Numbers are recorded as their sign-adjusted integer part plus
an `integral` flag (`False` when a fraction or exponent part is
present); float arithmetic itself is irrelevant to every property
proved here.  A `\uXXXX` escape is recorded as the character with that
code (surrogate-pair combination is not modelled; it affects only the
decoded text of exotic string literals, never parse success). -/

/-- JSON values as produced by `json.loads`: `null`, booleans, numbers,
strings, arrays, objects (member lists in source order, duplicates
kept), and the non-finite float constants. -/
inductive JValue where
  | null
  | bool (b : Bool)
  | num (n : Int) (integral : Bool)
  | str (s : String)
  | arr (elems : List JValue)
  | obj (members : List (String × JValue))
  | nonfinite (lit : String)
deriving Repr

/-- The whitespace characters `json.loads` skips between tokens. -/
def isJsonWs (c : Char) : Bool :=
  c = ' ' || c = '\t' || c = '\n' || c = '\r'

/-- Expect a literal run of characters; return the rest on success.
The subtype records that the rest is a suffix of the input; these
embedded proofs (here and in the parsers below) are bookkeeping only
and do not alter the computation. -/
def expectChars : List Char → (s : List Char) → Option { r : List Char // r <:+ s }
  | [], s => some ⟨s, List.suffix_rfl⟩
  | c :: cs, x :: xs =>
    if x = c then
      match expectChars cs xs with
      | some ⟨r, h⟩ => some ⟨r, h.trans (List.suffix_cons x xs)⟩
      | none => none
    else none
  | _ :: _, [] => none

/-- Numeric value of a run of decimal digits. -/
def digitsVal (l : List Char) : Nat :=
  l.foldl (fun acc c => acc * 10 + (c.toNat - '0'.toNat)) 0

/-- Hex digit value, `none` for a non-hex-digit. -/
def hexVal (c : Char) : Option Nat :=
  if '0' ≤ c ∧ c ≤ '9' then some (c.toNat - '0'.toNat)
  else if 'a' ≤ c ∧ c ≤ 'f' then some (c.toNat - 'a'.toNat + 10)
  else if 'A' ≤ c ∧ c ≤ 'F' then some (c.toNat - 'A'.toNat + 10)
  else none

/-- Decode one escape sequence (input begins after the backslash):
the escaped character and the remaining input, `none` on a bad escape.
A `\uXXXX` escape yields the character with that code. -/
def escChar : (l : List Char) → Option (Char × { r : List Char // r <:+ l })
  | '"' :: r => some ('"', ⟨r, ⟨['"'], rfl⟩⟩)
  | '\\' :: r => some ('\\', ⟨r, ⟨['\\'], rfl⟩⟩)
  | '/' :: r => some ('/', ⟨r, ⟨['/'], rfl⟩⟩)
  | 'b' :: r => some ('\x08', ⟨r, ⟨['b'], rfl⟩⟩)
  | 'f' :: r => some ('\x0c', ⟨r, ⟨['f'], rfl⟩⟩)
  | 'n' :: r => some ('\n', ⟨r, ⟨['n'], rfl⟩⟩)
  | 'r' :: r => some ('\r', ⟨r, ⟨['r'], rfl⟩⟩)
  | 't' :: r => some ('\t', ⟨r, ⟨['t'], rfl⟩⟩)
  | 'u' :: h1 :: h2 :: h3 :: h4 :: r =>
    match hexVal h1, hexVal h2, hexVal h3, hexVal h4 with
    | some a, some b, some c, some d =>
      some (Char.ofNat (((a * 16 + b) * 16 + c) * 16 + d), ⟨r, ⟨['u', h1, h2, h3, h4], rfl⟩⟩)
    | _, _, _, _ => none
  | _ => none

/-- Decode the body of a JSON string literal (input begins after the
opening quote); returns the decoded characters and the input after the
closing quote.  Mirrors the strict-mode scanner: unterminated strings,
raw control characters below U+0020, and bad escapes are errors. -/
def pStringBody : (s : List Char) → Option (List Char × { r : List Char // r <:+ s })
  | [] => none
  | '"' :: r => some ([], ⟨r, ⟨['"'], rfl⟩⟩)
  | '\\' :: r =>
    match escChar r with
    | some (c, ⟨r2, h2⟩) =>
      match pStringBody r2 with
      | some (cs, ⟨r3, h3⟩) => some (c :: cs, ⟨r3, ((h3.trans h2).trans ⟨['\\'], rfl⟩)⟩)
      | none => none
    | none => none
  | c :: r =>
    if c.toNat < 0x20 then none
    else
      match pStringBody r with
      | some (cs, ⟨r3, h3⟩) => some (c :: cs, ⟨r3, h3.trans (List.suffix_cons c r)⟩)
      | none => none
termination_by s => s.length
decreasing_by
  · have := h2.length_le; simp_wf; omega
  · simp_wf

/-- Build a parsed number: sign-adjusted integer part and integrality. -/
def mkNum (neg : Bool) (iv : Nat) (integral : Bool) : JValue :=
  .num (if neg then -(iv : Int) else (iv : Int)) integral

theorem mkNum_ne_arr (neg : Bool) (iv : Nat) (integral : Bool) (l : List JValue) :
    mkNum neg iv integral ≠ JValue.arr l := by
  simp [mkNum]

/-- Skip one optional sign character of an exponent. -/
def skipSign : (r : List Char) → { r2 : List Char // r2 <:+ r }
  | '+' :: rr => ⟨rr, ⟨['+'], rfl⟩⟩
  | '-' :: rr => ⟨rr, ⟨['-'], rfl⟩⟩
  | r => ⟨r, List.suffix_rfl⟩

/-- Parse an optional exponent part (`[eE][+-]?\d+`); `integral` is
already `false` if a fraction part was seen. -/
def pExpPart (neg : Bool) (iv : Nat) (integral : Bool) :
    (s : List Char) → Option (JValue × { r : List Char // r <:+ s })
  | c :: r =>
    if c = 'e' ∨ c = 'E' then
      match (skipSign r).1.takeWhile Char.isDigit with
      | [] => none
      | _ :: _ =>
        some (mkNum neg iv false,
          ⟨(skipSign r).1.dropWhile Char.isDigit,
            (((List.dropWhile_suffix Char.isDigit).trans (skipSign r).2).trans
              (List.suffix_cons c r))⟩)
    else some (mkNum neg iv integral, ⟨c :: r, List.suffix_rfl⟩)
  | [] => some (mkNum neg iv integral, ⟨[], List.suffix_rfl⟩)

/-- Parse an optional fraction part (`\.\d+`) then the exponent part. -/
def pFracPart (neg : Bool) (iv : Nat) :
    (s : List Char) → Option (JValue × { r : List Char // r <:+ s })
  | '.' :: r =>
    match r.takeWhile Char.isDigit with
    | [] => none
    | _ :: _ =>
      match pExpPart neg iv false (r.dropWhile Char.isDigit) with
      | some (v, ⟨r2, h2⟩) =>
        some (v, ⟨r2, ((h2.trans (List.dropWhile_suffix Char.isDigit)).trans (List.suffix_cons '.' r))⟩)
      | none => none
  | s => pExpPart neg iv true s

/-- Parse a JSON number body (input begins at the first digit; the sign
was consumed by the caller).  The integer part is `0` or a nonzero
digit followed by digits, as in the `json` module's number regex. -/
def pNumber (neg : Bool) :
    (s : List Char) → Option (JValue × { r : List Char // r <:+ s })
  | '0' :: r =>
    match pFracPart neg 0 r with
    | some (v, ⟨r2, h2⟩) => some (v, ⟨r2, h2.trans (List.suffix_cons '0' r)⟩)
    | none => none
  | c :: r =>
    if c.isDigit then
      match pFracPart neg (digitsVal (c :: r.takeWhile Char.isDigit)) (r.dropWhile Char.isDigit) with
      | some (v, ⟨r2, h2⟩) =>
        some (v, ⟨r2, ((h2.trans (List.dropWhile_suffix Char.isDigit)).trans (List.suffix_cons c r))⟩)
      | none => none
    else none
  | [] => none

theorem pExpPart_ne_arr {neg : Bool} {iv : Nat} {integral : Bool} {s : List Char}
    {v : JValue} {r : { r : List Char // r <:+ s }}
    (h : pExpPart neg iv integral s = some (v, r)) (l : List JValue) :
    v ≠ JValue.arr l := by
  rw [pExpPart.eq_def] at h
  split at h
  · split at h
    · split at h
      all_goals
        first
        | (rw [Option.some.injEq, Prod.mk.injEq] at h
           exact h.1 ▸ mkNum_ne_arr _ _ _ l)
        | simp at h
    · rw [Option.some.injEq, Prod.mk.injEq] at h
      exact h.1 ▸ mkNum_ne_arr _ _ _ l
  · rw [Option.some.injEq, Prod.mk.injEq] at h
    exact h.1 ▸ mkNum_ne_arr _ _ _ l

theorem pFracPart_ne_arr {neg : Bool} {iv : Nat} {s : List Char}
    {v : JValue} {r : { r : List Char // r <:+ s }}
    (h : pFracPart neg iv s = some (v, r)) (l : List JValue) :
    v ≠ JValue.arr l := by
  rw [pFracPart.eq_def] at h
  split at h
  · split at h
    · simp at h
    · split at h
      · rename_i v2 r2 heq
        simp at h
        obtain ⟨h1, h2⟩ := h
        subst h1
        exact pExpPart_ne_arr heq l
      · simp at h
  · exact pExpPart_ne_arr h l

theorem pNumber_ne_arr {neg : Bool} {s : List Char}
    {v : JValue} {r : { r : List Char // r <:+ s }}
    (h : pNumber neg s = some (v, r)) (l : List JValue) :
    v ≠ JValue.arr l := by
  rw [pNumber.eq_def] at h
  split at h
  · split at h
    · rename_i v2 r2 heq
      simp at h
      obtain ⟨h1, h2⟩ := h
      subst h1
      exact pFracPart_ne_arr heq l
    · simp at h
  · split at h
    · split at h
      · rename_i v2 r2 heq
        simp at h
        obtain ⟨h1, h2⟩ := h
        subst h1
        exact pFracPart_ne_arr heq l
      · simp at h
    · simp at h
  · simp at h

/-- Result of `pValue` on input `s`: the parsed value, the unconsumed
rest, and bookkeeping proofs: the rest is a suffix of the input and an
array result implies the input starts with `'['` and the consumed text
ends with `']'`. -/
structure VRes (s : List Char) where
  val : JValue
  rest : List Char
  sfx : rest <:+ s
  arrShape : ∀ l, val = JValue.arr l → (∃ u, s = '[' :: u) ∧ (']' :: rest) <:+ s

/-! The fueled mutual recursive-descent parser for `json.loads`.  Along
any chain of nested parser calls each call consumes at least one input
character for every two fuel ticks, so the fuel `2 * length + 2` used by
`jloadsL` is never exhausted on its input. -/

mutual

/-- Parse one JSON value (input begins at its first character). -/
def pValue : Nat → (s : List Char) → Option (VRes s)
  | 0, _ => none
  | fuel + 1, s =>
    match s with
    | '{' :: r =>
      match pMembersFirst fuel r with
      | some (ms, ⟨r2, h⟩) =>
        some ⟨.obj ms, r2, h.trans (List.suffix_cons '{' r), fun _ hl => nomatch hl⟩
      | none => none
    | '[' :: r =>
      match pElemsFirst fuel r with
      | some (es, ⟨r2, h⟩) =>
        some ⟨.arr es, r2,
          ((List.suffix_cons ']' r2).trans h).trans (List.suffix_cons '[' r),
          fun _ _ => ⟨⟨r, rfl⟩, h.trans (List.suffix_cons '[' r)⟩⟩
      | none => none
    | '"' :: r =>
      match pStringBody r with
      | some (cs, ⟨r2, h⟩) =>
        some ⟨.str ⟨cs⟩, r2, h.trans (List.suffix_cons '"' r), fun _ hl => nomatch hl⟩
      | none => none
    | 't' :: r =>
      match expectChars ['r', 'u', 'e'] r with
      | some ⟨r2, h⟩ =>
        some ⟨.bool true, r2, h.trans (List.suffix_cons 't' r), fun _ hl => nomatch hl⟩
      | none => none
    | 'f' :: r =>
      match expectChars ['a', 'l', 's', 'e'] r with
      | some ⟨r2, h⟩ =>
        some ⟨.bool false, r2, h.trans (List.suffix_cons 'f' r), fun _ hl => nomatch hl⟩
      | none => none
    | 'n' :: r =>
      match expectChars ['u', 'l', 'l'] r with
      | some ⟨r2, h⟩ =>
        some ⟨.null, r2, h.trans (List.suffix_cons 'n' r), fun _ hl => nomatch hl⟩
      | none => none
    | 'N' :: r =>
      match expectChars ['a', 'N'] r with
      | some ⟨r2, h⟩ =>
        some ⟨.nonfinite "NaN", r2, h.trans (List.suffix_cons 'N' r), fun _ hl => nomatch hl⟩
      | none => none
    | 'I' :: r =>
      match expectChars ['n', 'f', 'i', 'n', 'i', 't', 'y'] r with
      | some ⟨r2, h⟩ =>
        some ⟨.nonfinite "Infinity", r2, h.trans (List.suffix_cons 'I' r), fun _ hl => nomatch hl⟩
      | none => none
    | '-' :: r =>
      match expectChars ['I', 'n', 'f', 'i', 'n', 'i', 't', 'y'] r with
      | some ⟨r2, h⟩ =>
        some ⟨.nonfinite "-Infinity", r2, h.trans (List.suffix_cons '-' r), fun _ hl => nomatch hl⟩
      | none =>
        match hnum : pNumber true r with
        | some (v, ⟨r2, h⟩) =>
          some ⟨v, r2, h.trans (List.suffix_cons '-' r),
            fun l hl => absurd hl (pNumber_ne_arr hnum l)⟩
        | none => none
    | s0 =>
      match hnum : pNumber false s0 with
      | some (v, ⟨r2, h⟩) =>
        some ⟨v, r2, h, fun l hl => absurd hl (pNumber_ne_arr hnum l)⟩
      | none => none

/-- Parse the elements of an array after its `'['` (empty array or
first element then the comma-separated remainder). -/
def pElemsFirst : Nat → (s : List Char) → Option (List JValue × { r : List Char // (']' :: r) <:+ s })
  | 0, _ => none
  | fuel + 1, s =>
    match hws : s.dropWhile isJsonWs with
    | ']' :: r => some ([], ⟨r, hws ▸ List.dropWhile_suffix isJsonWs⟩)
    | s1 =>
      match pValue fuel s1 with
      | some res =>
        match pElemsRest fuel res.rest with
        | some (vs, ⟨r2, h2⟩) =>
          some (res.val :: vs,
            ⟨r2, ((h2.trans res.sfx).trans (hws ▸ List.dropWhile_suffix isJsonWs))⟩)
        | none => none
      | none => none

/-- Parse `',' value`-repetitions until the closing `']'`. -/
def pElemsRest : Nat → (s : List Char) → Option (List JValue × { r : List Char // (']' :: r) <:+ s })
  | 0, _ => none
  | fuel + 1, s =>
    match hws : s.dropWhile isJsonWs with
    | ']' :: r => some ([], ⟨r, hws ▸ List.dropWhile_suffix isJsonWs⟩)
    | ',' :: r =>
      match pValue fuel (r.dropWhile isJsonWs) with
      | some res =>
        match pElemsRest fuel res.rest with
        | some (vs, ⟨r2, h2⟩) =>
          some (res.val :: vs,
            ⟨r2, ((((h2.trans res.sfx).trans (List.dropWhile_suffix isJsonWs)).trans
              (List.suffix_cons ',' r)).trans (hws ▸ List.dropWhile_suffix isJsonWs))⟩)
        | none => none
      | none => none
    | _ => none

/-- Parse the members of an object after its `'{'`. -/
def pMembersFirst : Nat → (s : List Char) →
    Option (List (String × JValue) × { r : List Char // r <:+ s })
  | 0, _ => none
  | fuel + 1, s =>
    match hws : s.dropWhile isJsonWs with
    | '}' :: r =>
      some ([], ⟨r, (List.suffix_cons '}' r).trans (hws ▸ List.dropWhile_suffix isJsonWs)⟩)
    | '"' :: r =>
      match pStringBody r with
      | some (kcs, ⟨s2, h2⟩) =>
        match pMemberTail fuel ⟨kcs⟩ s2 with
        | some (ms, ⟨r2, h3⟩) =>
          some (ms, ⟨r2, (((h3.trans h2).trans (List.suffix_cons '"' r)).trans
            (hws ▸ List.dropWhile_suffix isJsonWs))⟩)
        | none => none
      | none => none
    | _ => none

/-- After an object key: expect `':'`, a value, then the remainder. -/
def pMemberTail : Nat → String → (s : List Char) →
    Option (List (String × JValue) × { r : List Char // r <:+ s })
  | 0, _, _ => none
  | fuel + 1, k, s =>
    match hws : s.dropWhile isJsonWs with
    | ':' :: r =>
      match pValue fuel (r.dropWhile isJsonWs) with
      | some res =>
        match pMembersRest fuel res.rest with
        | some (ms, ⟨r2, h2⟩) =>
          some ((k, res.val) :: ms,
            ⟨r2, ((((h2.trans res.sfx).trans (List.dropWhile_suffix isJsonWs)).trans
              (List.suffix_cons ':' r)).trans (hws ▸ List.dropWhile_suffix isJsonWs))⟩)
        | none => none
      | none => none
    | _ => none

/-- Parse `',' "key" ':' value`-repetitions until the closing `'}'`. -/
def pMembersRest : Nat → (s : List Char) →
    Option (List (String × JValue) × { r : List Char // r <:+ s })
  | 0, _ => none
  | fuel + 1, s =>
    match hws : s.dropWhile isJsonWs with
    | '}' :: r =>
      some ([], ⟨r, (List.suffix_cons '}' r).trans (hws ▸ List.dropWhile_suffix isJsonWs)⟩)
    | ',' :: r =>
      match hws2 : r.dropWhile isJsonWs with
      | '"' :: r2 =>
        match pStringBody r2 with
        | some (kcs, ⟨s2, h2⟩) =>
          match pMemberTail fuel ⟨kcs⟩ s2 with
          | some (ms, ⟨r3, h3⟩) =>
            some (ms, ⟨r3, (((((h3.trans h2).trans (List.suffix_cons '"' r2)).trans
              (hws2 ▸ List.dropWhile_suffix isJsonWs)).trans (List.suffix_cons ',' r)).trans
              (hws ▸ List.dropWhile_suffix isJsonWs))⟩)
          | none => none
        | none => none
      | _ => none
    | _ => none

end

/-- Strip leading and trailing JSON whitespace.  `json.loads` skips
leading whitespace, parses one value, and then requires that only
whitespace remain; since no JSON value ends in a whitespace character,
this equals trimming both ends and requiring exact consumption. -/
def trimJsonWs (l : List Char) : List Char :=
  ((l.dropWhile isJsonWs).reverse.dropWhile isJsonWs).reverse

/-- `json.loads` on a character list: trim surrounding whitespace, parse
exactly one value consuming the whole remainder. -/
def jloadsL (cs : List Char) : Option JValue :=
  let t := trimJsonWs cs
  match (pValue (2 * t.length + 2) t).map (fun res => (res.val, res.rest)) with
  | some (v, []) => some v
  | _ => none

/-- `json.loads` on a string: `some v` on success, `none` where the
Python call raises `json.JSONDecodeError`. -/
def jloads (s : String) : Option JValue := jloadsL s.data

/-! ## `LLMService.parse_llm_response` (`llm_service.py`) -/

/-- `str.find` for a single character: index of the first occurrence
(`none` where Python returns `-1`). -/
def firstIdx (c : Char) : List Char → Option Nat
  | [] => none
  | x :: xs =>
    if x = c then some 0
    else (firstIdx c xs).map (· + 1)

/-- `str.rfind` for a single character: index of the last occurrence
(`none` where Python returns `-1`). -/
def lastIdx (c : Char) (l : List Char) : Option Nat :=
  (firstIdx c l.reverse).map (fun i => l.length - 1 - i)

/-- `LLMService.parse_llm_response`: find the first `'['` and the last
`']'`; when `json_start >= 0 and json_end > json_start` (with
`json_end = rfind + 1`), decode the slice `response[json_start:json_end]`
and return it if it decoded to a list, `[]` otherwise (a decode error is
caught and also yields `[]`); in the remaining cases decode the entire
response the same way. -/
def parse_llm_response (response : String) : List JValue :=
  let cs := response.data
  match firstIdx '[' cs, lastIdx ']' cs with
  | some json_start, some jr =>
    if json_start < jr + 1 then
      match jloadsL ((cs.drop json_start).take (jr + 1 - json_start)) with
      | some (.arr issues) => issues
      | _ => []
    else
      match jloadsL cs with
      | some (.arr issues) => issues
      | _ => []
  | _, _ =>
    match jloadsL cs with
    | some (.arr issues) => issues
    | _ => []

/-- Modelled from the spec: the normalizer as the spec sentence words it —
locate the first `'['` and the last `']'` and attempt to decode that
substring as a JSON array; on decode failure (including a non-array
decode), attempt to decode the entire raw text as JSON; on any failure
return the empty sequence.  Written only to be compared with
`parse_llm_response`. -/
def parseSpecDescribed (response : String) : List JValue :=
  let cs := response.data
  match firstIdx '[' cs, lastIdx ']' cs with
  | some json_start, some jr =>
    if json_start < jr + 1 then
      match jloadsL ((cs.drop json_start).take (jr + 1 - json_start)) with
      | some (.arr issues) => issues
      | _ =>
        match jloadsL cs with
        | some (.arr issues) => issues
        | _ => []
    else
      match jloadsL cs with
      | some (.arr issues) => issues
      | _ => []
  | _, _ =>
    match jloadsL cs with
    | some (.arr issues) => issues
    | _ => []

theorem isJsonWs_ne_lbracket {x : Char} (h : isJsonWs x = true) : x ≠ '[' := by
  simp [isJsonWs] at h
  rcases h with ((h | h) | h) | h <;> subst h <;> decide

theorem isJsonWs_ne_rbracket {x : Char} (h : isJsonWs x = true) : x ≠ ']' := by
  simp [isJsonWs] at h
  rcases h with ((h | h) | h) | h <;> subst h <;> decide

theorem firstIdx_append (c : Char) (a b : List Char) (ha : ∀ x ∈ a, x ≠ c) :
    firstIdx c (a ++ c :: b) = some a.length := by
  induction a with
  | nil => simp [firstIdx]
  | cons x xs ih =>
    have hx : x ≠ c := ha x (by simp)
    rw [List.cons_append, firstIdx, if_neg hx,
      ih (fun y hy => ha y (by simp [hy]))]
    rfl

theorem lastIdx_append (c : Char) (a b : List Char) (hb : ∀ x ∈ b, x ≠ c) :
    lastIdx c (a ++ c :: b) = some a.length := by
  rw [lastIdx]
  have hrev : (a ++ c :: b).reverse = b.reverse ++ c :: a.reverse := by
    simp [List.reverse_cons]
  rw [hrev, firstIdx_append c b.reverse a.reverse
    (fun y hy => hb y (List.mem_reverse.mp hy))]
  simp [List.length_append]

theorem trimJsonWs_decomp (cs : List Char) :
    ∃ ws1 ws2, cs = ws1 ++ trimJsonWs cs ++ ws2 ∧
      (∀ x ∈ ws1, isJsonWs x = true) ∧ (∀ x ∈ ws2, isJsonWs x = true) := by
  refine ⟨cs.takeWhile isJsonWs,
    ((cs.dropWhile isJsonWs).reverse.takeWhile isJsonWs).reverse, ?_, ?_, ?_⟩
  · conv_lhs => rw [← List.takeWhile_append_dropWhile (p := isJsonWs) (l := cs)]
    rw [trimJsonWs, List.append_assoc]
    congr 1
    conv_lhs => rw [← List.reverse_reverse (cs.dropWhile isJsonWs)]
    conv_lhs =>
      rw [← List.takeWhile_append_dropWhile (p := isJsonWs)
        (l := (cs.dropWhile isJsonWs).reverse)]
    rw [List.reverse_append]
  · exact fun x hx => List.mem_takeWhile_imp hx
  · exact fun x hx => List.mem_takeWhile_imp (List.mem_reverse.mp hx)

theorem trimJsonWs_of_brackets {u w t : List Char}
    (h1 : t = '[' :: u) (h2 : t = w ++ [']']) : trimJsonWs t = t := by
  rw [trimJsonWs]
  have hd : t.dropWhile isJsonWs = t := by
    rw [h1, List.dropWhile_cons]
    simp [isJsonWs]
  rw [hd]
  have hr : t.reverse = ']' :: w.reverse := by
    rw [h2]; simp
  rw [hr, List.dropWhile_cons, if_neg (by decide)]
  rw [← hr, List.reverse_reverse]

theorem jloadsL_arr_locate {cs : List Char} {l : List JValue}
    (h : jloadsL cs = some (JValue.arr l)) :
    ∃ i j, firstIdx '[' cs = some i ∧ lastIdx ']' cs = some j ∧ i < j + 1 ∧
      jloadsL ((cs.drop i).take (j + 1 - i)) = some (JValue.arr l) := by
  simp only [jloadsL] at h
  cases hp : pValue (2 * (trimJsonWs cs).length + 2) (trimJsonWs cs) with
  | none => rw [hp] at h; simp at h
  | some res =>
    rw [hp] at h
    obtain ⟨v, rest, hsfx, harr⟩ := res
    cases rest with
    | cons a t2 => simp at h
    | nil =>
      simp at h
      subst h
      obtain ⟨⟨u, hu⟩, hsu⟩ := harr l rfl
      obtain ⟨w, hw⟩ := hsu
      obtain ⟨ws1, ws2, hcs, hws1, hws2⟩ := trimJsonWs_decomp cs
      have hTw : trimJsonWs cs = w ++ [']'] := hw.symm
      have hfi : firstIdx '[' cs = some ws1.length := by
        have : cs = ws1 ++ '[' :: (u ++ ws2) := by
          rw [hcs, hu]; simp
        rw [this]
        exact firstIdx_append '[' ws1 (u ++ ws2)
          (fun x hx => isJsonWs_ne_lbracket (hws1 x hx))
      have hla : lastIdx ']' cs = some (ws1.length + w.length) := by
        have : cs = (ws1 ++ w) ++ ']' :: ws2 := by
          rw [hcs, hTw]; simp
        rw [this]
        have := lastIdx_append ']' (ws1 ++ w) ws2
          (fun x hx => isJsonWs_ne_rbracket (hws2 x hx))
        rw [this]
        simp [List.length_append]
      refine ⟨ws1.length, ws1.length + w.length, hfi, hla, by omega, ?_⟩
      have hslice : (cs.drop ws1.length).take (ws1.length + w.length + 1 - ws1.length) =
          trimJsonWs cs := by
        have hd : cs.drop ws1.length = trimJsonWs cs ++ ws2 := by
          conv_lhs => rw [hcs, List.append_assoc]
          exact List.drop_left _ _
        rw [hd]
        have hlen : ws1.length + w.length + 1 - ws1.length = (trimJsonWs cs).length := by
          rw [hTw]; simp; omega
        rw [hlen]
        exact List.take_left _ _
      rw [hslice]
      have htt : trimJsonWs (trimJsonWs cs) = trimJsonWs cs :=
        trimJsonWs_of_brackets hu hTw
      simp only [jloadsL]
      rw [htt, hp]
      rfl

/-- C2: `parse_llm_response` locates the first `'['` and last `']'`,
attempts to decode that substring as a JSON array, falls back to
decoding the entire raw text, and returns an empty sequence when every
attempt fails — stated as extensional equality with the algorithm the
spec describes (`parseSpecDescribed`). -/
theorem C2_parse_follows_spec (s : String) :
    parse_llm_response s = parseSpecDescribed s := by
  rw [parse_llm_response, parseSpecDescribed]
  cases hf : firstIdx '[' s.data with
  | none => rfl
  | some i =>
    cases hl : lastIdx ']' s.data with
    | none => rfl
    | some j =>
      simp only []
      by_cases hij : i < j + 1
      · rw [if_pos hij, if_pos hij]
        cases hj : jloadsL ((s.data.drop i).take (j + 1 - i)) with
        | none =>
          simp only []
          cases hw : jloadsL s.data with
          | none => rfl
          | some v =>
            cases v with
            | arr l2 =>
              obtain ⟨i2, j2, hf2, hl2, hij2, hsub2⟩ := jloadsL_arr_locate hw
              rw [hf] at hf2
              rw [hl] at hl2
              obtain rfl : i = i2 := Option.some.inj hf2
              obtain rfl : j = j2 := Option.some.inj hl2
              rw [hj] at hsub2
              exact absurd hsub2 (by simp)
            | null => rfl
            | bool b => rfl
            | num n b => rfl
            | str t => rfl
            | obj ms => rfl
            | nonfinite t => rfl
        | some v =>
          cases v <;>
            first
            | rfl
            | (cases hw : jloadsL s.data with
               | none => rfl
               | some v2 =>
                 cases v2 <;>
                   first
                   | rfl
                   | (obtain ⟨i2, j2, hf2, hl2, hij2, hsub2⟩ := jloadsL_arr_locate hw
                      rw [hf] at hf2
                      rw [hl] at hl2
                      obtain rfl : i = i2 := Option.some.inj hf2
                      obtain rfl : j = j2 := Option.some.inj hl2
                      rw [hj] at hsub2
                      exact absurd hsub2 (by simp)))
      · rw [if_neg hij, if_neg hij]

/-- The single decode attempt `parse_llm_response` performs: the
bracket-delimited substring when `json_start >= 0 and json_end >
json_start`, the entire response otherwise. -/
def decodeOutcome (response : String) : Option JValue :=
  let cs := response.data
  match firstIdx '[' cs, lastIdx ']' cs with
  | some json_start, some jr =>
    if json_start < jr + 1 then jloadsL ((cs.drop json_start).take (jr + 1 - json_start))
    else jloadsL cs
  | _, _ => jloadsL cs

theorem parse_eq_outcome (s : String) :
    parse_llm_response s =
      match decodeOutcome s with
      | some (JValue.arr issues) => issues
      | _ => [] := by
  rw [parse_llm_response, decodeOutcome]
  cases firstIdx '[' s.data <;> cases lastIdx ']' s.data <;> dsimp only
  rename_i i j
  by_cases hij : i < j + 1
  · rw [if_pos hij, if_pos hij]
  · rw [if_neg hij, if_neg hij]

/-- C6: on every string input the normalizer returns a list (it never
raises), and whenever its decode attempt fails or yields JSON that is
not an array the returned list is empty. -/
theorem C6_parse_total_and_nonarray (s : String) :
    (∃ issues : List JValue, parse_llm_response s = issues) ∧
    (∀ v, decodeOutcome s = some v → (∀ xs, v ≠ JValue.arr xs) →
      parse_llm_response s = []) ∧
    (decodeOutcome s = none → parse_llm_response s = []) := by
  refine ⟨⟨parse_llm_response s, rfl⟩, ?_, ?_⟩
  · intro v hv hna
    rw [parse_eq_outcome, hv]
    cases v <;> first | rfl | exact absurd rfl (hna _)
  · intro hv
    rw [parse_eq_outcome, hv]

/-- Witness for C6 at a concrete input: `"{}"` decodes to a JSON object
(not an array) and the normalizer returns the empty list. -/
theorem C6_witness :
    decodeOutcome "{}" = some (JValue.obj []) ∧ parse_llm_response "{}" = [] := by
  constructor
  · rfl
  · exact (C6_parse_total_and_nonarray "{}").2.1 (JValue.obj []) rfl
      (fun xs h => by simp at h)

/-- Python `str.upper` on ASCII text. -/
def charUpper (c : Char) : Char :=
  if 'a' ≤ c ∧ c ≤ 'z' then Char.ofNat (c.toNat - 32) else c

/-- Python `str.upper` (ASCII model, per the conventions above). -/
def pyUpper (s : String) : String := ⟨s.data.map charUpper⟩

/-- Python `str.lower` on ASCII text. -/
def charLower (c : Char) : Char :=
  if 'A' ≤ c ∧ c ≤ 'Z' then Char.ofNat (c.toNat + 32) else c

/-- Python `str.lower` (ASCII model, per the conventions above). -/
def pyLower (s : String) : String := ⟨s.data.map charLower⟩

/-! ## `BaseSecurityAnalyzer._create_security_issues`

Each raw record from the normalizer is a parsed JSON value.  The loop
body reads fields with `dict.get`, coerces the severity, and constructs
the pydantic `SecurityIssue`; any exception in the body (`.upper()` on a
non-string severity, `.get` on a non-object record, or a pydantic
`ValidationError`) is caught and the record skipped.  pydantic v2 lax
validation is modelled per field type: `str` accepts exactly JSON
strings; `Optional[int]` accepts `None`, integral numbers, and numeric
strings (a numeric literal with a fraction or exponent part is modelled
as failing `int` validation); `Optional[str]` accepts `None` and
strings; `Optional[List[str]]` accepts `None` and lists of strings.
The non-deterministic default id `f"SEC-{uuid4...}"` is abstracted by a
`freshId` function. -/

/-- Python `dict` built from parsed JSON members (`dict.get`): a
duplicate key keeps its last value; `none` for an absent key. -/
def jget (members : List (String × JValue)) (k : String) : Option JValue :=
  match members with
  | [] => none
  | (k2, v) :: rest =>
    match jget rest k with
    | some v2 => some v2
    | none => if k2 = k then some v else none

/-- `dict.get(k, default)`: the stored value (even `None`) when the key
is present, the default otherwise. -/
def jgetD (members : List (String × JValue)) (k : String) (d : JValue) : JValue :=
  (jget members k).getD d

/-- pydantic v2 lax validation against `str`. -/
def vStr : JValue → Except String String
  | .str s => .ok s
  | _ => .error "string_type"

/-- pydantic v2 lax validation against `Optional[str]`. -/
def vOptStr : JValue → Except String (Option String)
  | .null => .ok none
  | .str s => .ok (some s)
  | _ => .error "string_type"

/-- Lax `int` parsing of a decimal string (optional sign, digits). -/
def strToInt (s : String) : Option Int :=
  match s.data with
  | [] => none
  | '-' :: ds =>
    if ds ≠ [] ∧ ds.all Char.isDigit then some (-(digitsVal ds : Int)) else none
  | '+' :: ds =>
    if ds ≠ [] ∧ ds.all Char.isDigit then some ((digitsVal ds : Int)) else none
  | ds => if ds ≠ [] ∧ ds.all Char.isDigit then some ((digitsVal ds : Int)) else none

/-- pydantic v2 lax validation against `Optional[int]`: `None`,
integral numbers, and numeric strings pass; booleans, non-integral
numbers, and everything else fail. -/
def vOptInt : JValue → Except String (Option Int)
  | .null => .ok none
  | .num n true => .ok (some n)
  | .num _ false => .error "int_from_float"
  | .str s =>
    match strToInt s with
    | some n => .ok (some n)
    | none => .error "int_parsing"
  | _ => .error "int_type"

/-- pydantic v2 lax validation against `Optional[List[str]]`. -/
def vOptListStr : JValue → Except String (Option (List String))
  | .null => .ok none
  | .arr xs => (xs.mapM vStr).map some
  | _ => .error "list_type"

/-- The value passed for the `file_path` field:
`file_path or data.get("file_path")` — the caller's path whenever it is
truthy (non-`None`, non-empty), otherwise the record's own value. -/
def pickedPath (default_file_path : Option String) (kvs : List (String × JValue)) : JValue :=
  match default_file_path with
  | some s => if s = "" then jgetD kvs "file_path" .null else .str s
  | none => jgetD kvs "file_path" .null

/-- One iteration of the loop in `_create_security_issues`: `none`
where the Python body raises and the record is silently skipped. -/
def convertRecord (freshId : Nat → String) (idx : Nat)
    (default_file_path : Option String) (data : JValue) : Option SecurityIssue :=
  match data with
  | .obj kvs =>
    match jgetD kvs "severity" (.str "MEDIUM") with
    | .str sevStr =>
      let severity := (SeverityLevel.ofValue (pyUpper sevStr)).getD .MEDIUM
      let fields : Except String SecurityIssue := do
        let id ← vStr (jgetD kvs "id" (.str (freshId idx)))
        let title ← vStr (jgetD kvs "title" (.str "Security Issue"))
        let description ← vStr (jgetD kvs "description" (.str "No description provided"))
        let line_number ← vOptInt (jgetD kvs "line_number" .null)
        let column_number ← vOptInt (jgetD kvs "column_number" .null)
        let file_path ← vOptStr (pickedPath default_file_path kvs)
        let code_snippet ← vOptStr (jgetD kvs "code_snippet" .null)
        let remediation ← vOptStr (jgetD kvs "remediation" .null)
        let references ← vOptListStr (jgetD kvs "references" (.arr []))
        pure { id := id, title := title, description := description,
               severity := severity, line_number := line_number,
               column_number := column_number, file_path := file_path,
               code_snippet := code_snippet, remediation := remediation,
               references := references }
      match fields with
      | .ok iss => some iss
      | .error _ => none
    | _ => none
  | _ => none

/-- The loop of `_create_security_issues` (index threading models
`enumerate`). -/
def createIssuesAux (freshId : Nat → String) (default_file_path : Option String) :
    Nat → List JValue → List SecurityIssue
  | _, [] => []
  | idx, d :: rest =>
    match convertRecord freshId idx default_file_path d with
    | some iss => iss :: createIssuesAux freshId default_file_path (idx + 1) rest
    | none => createIssuesAux freshId default_file_path (idx + 1) rest

/-- `BaseSecurityAnalyzer._create_security_issues`. -/
def create_security_issues (freshId : Nat → String) (issues_data : List JValue)
    (file_path : Option String) : List SecurityIssue :=
  createIssuesAux freshId file_path 0 issues_data

theorem convertRecord_ok {freshId : Nat → String} {idx : Nat}
    {dfp : Option String} {kvs : List (String × JValue)} {iss : SecurityIssue}
    (hc : convertRecord freshId idx dfp (.obj kvs) = some iss) :
    ∃ sevStr, jgetD kvs "severity" (.str "MEDIUM") = .str sevStr ∧
      iss.severity = (SeverityLevel.ofValue (pyUpper sevStr)).getD .MEDIUM ∧
      vOptStr (pickedPath dfp kvs) = .ok iss.file_path := by
  rw [convertRecord] at hc
  cases hsev : jgetD kvs "severity" (.str "MEDIUM") with
  | str sevStr =>
    rw [hsev] at hc
    dsimp only at hc
    refine ⟨sevStr, rfl, ?_⟩
    simp only [Bind.bind, Except.bind] at hc
    cases h1 : vStr (jgetD kvs "id" (.str (freshId idx))) with
    | error e => rw [h1] at hc; simp at hc
    | ok id =>
      rw [h1] at hc
      cases h2 : vStr (jgetD kvs "title" (.str "Security Issue")) with
      | error e => rw [h2] at hc; simp at hc
      | ok title =>
        rw [h2] at hc
        cases h3 : vStr (jgetD kvs "description" (.str "No description provided")) with
        | error e => rw [h3] at hc; simp at hc
        | ok description =>
          rw [h3] at hc
          cases h4 : vOptInt (jgetD kvs "line_number" .null) with
          | error e => rw [h4] at hc; simp at hc
          | ok ln =>
            rw [h4] at hc
            cases h5 : vOptInt (jgetD kvs "column_number" .null) with
            | error e => rw [h5] at hc; simp at hc
            | ok col =>
              rw [h5] at hc
              cases h6 : vOptStr (pickedPath dfp kvs) with
              | error e => rw [h6] at hc; simp at hc
              | ok fp =>
                rw [h6] at hc
                cases h7 : vOptStr (jgetD kvs "code_snippet" .null) with
                | error e => rw [h7] at hc; simp at hc
                | ok snip =>
                  rw [h7] at hc
                  cases h8 : vOptStr (jgetD kvs "remediation" .null) with
                  | error e => rw [h8] at hc; simp at hc
                  | ok rem =>
                    rw [h8] at hc
                    cases h9 : vOptListStr (jgetD kvs "references" (.arr [])) with
                    | error e => rw [h9] at hc; simp at hc
                    | ok refs =>
                      rw [h9] at hc
                      simp only [pure, Except.pure, Option.some.injEq] at hc
                      subst hc
                      exact ⟨rfl, rfl⟩

  | null => rw [hsev] at hc; simp at hc
  | bool b => rw [hsev] at hc; simp at hc
  | num n b => rw [hsev] at hc; simp at hc
  | arr xs => rw [hsev] at hc; simp at hc
  | obj ms => rw [hsev] at hc; simp at hc
  | nonfinite t => rw [hsev] at hc; simp at hc

/-- C3 fails on the code: a record that carries its own `file_path`
(`"record.py"`) loses it when the caller supplies a default path
(`"caller.py"`); `file_path or data.get("file_path")` prefers the
caller's path. -/
theorem C3_counterexample :
    (create_security_issues (fun _ => "SEC-0")
        [JValue.obj [("id", JValue.str "X"), ("title", JValue.str "T"),
          ("description", JValue.str "D"), ("severity", JValue.str "HIGH"),
          ("file_path", JValue.str "record.py")]]
        (some "caller.py")).map (fun i => i.file_path) = [some "caller.py"] ∧
    (some "caller.py" : Option String) ≠ some "record.py" :=
  ⟨rfl, by decide⟩

/-- C3 (amended): the caller's default path, when non-empty, overrides
the record's own `file_path`; the record's own value is attached only
when the caller supplies no (or an empty) default path. -/
theorem C3_default_path_overrides (freshId : Nat → String) (idx : Nat)
    (kvs : List (String × JValue)) (iss : SecurityIssue) :
    (∀ fp, fp ≠ "" → convertRecord freshId idx (some fp) (.obj kvs) = some iss →
      iss.file_path = some fp) ∧
    (convertRecord freshId idx none (.obj kvs) = some iss →
      vOptStr (jgetD kvs "file_path" .null) = .ok iss.file_path) := by
  constructor
  · intro fp hne hc
    obtain ⟨sevStr, _, _, hfp⟩ := convertRecord_ok hc
    simp only [pickedPath] at hfp
    rw [if_neg hne] at hfp
    simp only [vOptStr, Except.ok.injEq] at hfp
    exact hfp.symm
  · intro hc
    obtain ⟨sevStr, _, _, hfp⟩ := convertRecord_ok hc
    simpa [pickedPath] using hfp

/-- Witness for the amended C3 at concrete records. -/
theorem C3_witness :
    convertRecord (fun _ => "SEC-0") 0 (some "caller.py")
        (.obj [("file_path", JValue.str "record.py"), ("severity", JValue.str "HIGH")]) =
      some { id := "SEC-0", title := "Security Issue",
             description := "No description provided", severity := .HIGH,
             file_path := some "caller.py", references := some [] } ∧
    ({ id := "SEC-0", title := "Security Issue",
       description := "No description provided", severity := .HIGH,
       file_path := some "caller.py", references := some [] } : SecurityIssue).file_path =
      some "caller.py" := by
  constructor
  · rfl
  · exact (C3_default_path_overrides (fun _ => "SEC-0") 0
      [("file_path", JValue.str "record.py"), ("severity", JValue.str "HIGH")] _).1
      "caller.py" (by decide) rfl

/-- C7 fails on the code as universally stated: a record whose severity
string is unrecognized is still dropped when another field fails
validation (`references: 5` is not a list of strings). -/
theorem C7_counterexample :
    SeverityLevel.ofValue (pyUpper "BANANA") = none ∧
    create_security_issues (fun _ => "SEC-0")
      [JValue.obj [("severity", JValue.str "BANANA"), ("references", JValue.num 5 true)]]
      none = [] :=
  ⟨rfl, rfl⟩

/-- C7 (amended): for a record that converts successfully, an
unrecognized severity string (case-insensitively) yields severity
MEDIUM, and the converted record is kept in the batch output; the
unrecognized severity alone never causes a drop. -/
theorem C7_unrecognized_severity_medium (freshId : Nat → String) (idx : Nat)
    (fp : Option String) (kvs : List (String × JValue)) (s : String) (iss : SecurityIssue)
    (hs : jgetD kvs "severity" (.str "MEDIUM") = .str s)
    (hur : SeverityLevel.ofValue (pyUpper s) = none)
    (hc : convertRecord freshId idx fp (.obj kvs) = some iss) :
    iss.severity = .MEDIUM ∧
    (convertRecord freshId 0 fp (.obj kvs) = some iss →
      create_security_issues freshId [.obj kvs] fp = [iss]) := by
  constructor
  · obtain ⟨sevStr, hsev, hsevval, _⟩ := convertRecord_ok hc
    rw [hs] at hsev
    obtain rfl : s = sevStr := by
      have := hsev
      simp at this
      exact this
    rw [hur] at hsevval
    simpa using hsevval
  · intro hc0
    simp [create_security_issues, createIssuesAux, hc0]

/-- Witness for the amended C7 at a concrete record. -/
theorem C7_witness :
    ({ id := "SEC-0", title := "Security Issue",
       description := "No description provided", severity := .MEDIUM,
       references := some [] } : SecurityIssue).severity = SeverityLevel.MEDIUM ∧
    create_security_issues (fun _ => "SEC-0")
      [JValue.obj [("severity", JValue.str "banana")]] none =
      [{ id := "SEC-0", title := "Security Issue",
         description := "No description provided", severity := .MEDIUM,
         references := some [] }] := by
  have happ := C7_unrecognized_severity_medium (fun _ => "SEC-0") 0 none
    [("severity", JValue.str "banana")] "banana"
    { id := "SEC-0", title := "Security Issue",
      description := "No description provided", severity := .MEDIUM,
      references := some [] } rfl rfl rfl
  exact ⟨happ.1, happ.2 rfl⟩

/-- C10: a record whose severity field is present but not a string
raises in `.upper()` and is silently dropped — it does not degrade to a
MEDIUM-severity issue. -/
theorem C10_nonstring_severity_dropped (freshId : Nat → String) (idx : Nat)
    (fp : Option String) (kvs : List (String × JValue)) (v : JValue)
    (hv : jget kvs "severity" = some v) (hns : ∀ s, v ≠ .str s) :
    convertRecord freshId idx fp (.obj kvs) = none ∧
    create_security_issues freshId [.obj kvs] fp = [] := by
  have hgd : jgetD kvs "severity" (.str "MEDIUM") = v := by rw [jgetD, hv]; rfl
  have hcr : ∀ i, convertRecord freshId i fp (.obj kvs) = none := by
    intro i
    rw [convertRecord, hgd]
    cases v with
    | str s => exact absurd rfl (hns s)
    | null => rfl
    | bool b => rfl
    | num n b => rfl
    | arr xs => rfl
    | obj ms => rfl
    | nonfinite t => rfl
  exact ⟨hcr idx, by simp [create_security_issues, createIssuesAux, hcr 0]⟩

/-- Witness for C10: a numeric severity and a `null` severity are both
dropped. -/
theorem C10_witness :
    convertRecord (fun _ => "SEC-0") 0 none
      (.obj [("severity", JValue.num 5 true)]) = none ∧
    create_security_issues (fun _ => "SEC-0")
      [JValue.obj [("severity", JValue.null)]] none = [] :=
  ⟨(C10_nonstring_severity_dropped (fun _ => "SEC-0") 0 none
      [("severity", JValue.num 5 true)] (JValue.num 5 true) rfl
      (fun s h => by simp at h)).1,
   (C10_nonstring_severity_dropped (fun _ => "SEC-0") 0 none
      [("severity", JValue.null)] JValue.null rfl
      (fun s h => by simp at h)).2⟩

/-! ## `BaseSecurityAnalyzer._generate_summary` and `analyze`

The source file stores its decorative banner characters double-encoded;
read as UTF-8 the literals are exactly the character sequences
reproduced below. -/

/-- The severity counts the summary reports, in the code's order. -/
def countSev (issues : List SecurityIssue) (sev : SeverityLevel) : Nat :=
  issues.countP (fun i => decide (i.severity = sev))

/-- The `"\n\n" + "=" * 70 + ...` completion banner appended to every
summary. -/
def completionMessage (lang : LanguageType) (analyzerName : String) : String :=
  "\n\n" ++ ⟨List.replicate 70 '='⟩ ++ "\n" ++
  "ðŸŽ¯ ANALYSIS COMPLETED SUCCESSFULLY ðŸŽ¯\n" ++
  ⟨List.replicate 70 '='⟩ ++ "\n" ++
  "Language: " ++ pyUpper lang.value ++ "\n" ++
  "Analyzer: " ++ analyzerName ++ "\n" ++
  "Status: âœ… FINISHED\n" ++
  ⟨List.replicate 70 '='⟩

/-- The issue-count sentence of `_generate_summary`. -/
def summaryLine (issues : List SecurityIssue) : String :=
  if issues = [] then "No security issues detected."
  else
    let critical := countSev issues .CRITICAL
    let high := countSev issues .HIGH
    let medium := countSev issues .MEDIUM
    let low := countSev issues .LOW
    let parts :=
      (if critical ≠ 0 then [toString critical ++ " critical"] else []) ++
      (if high ≠ 0 then [toString high ++ " high"] else []) ++
      (if medium ≠ 0 then [toString medium ++ " medium"] else []) ++
      (if low ≠ 0 then [toString low ++ " low"] else [])
    let severity_text := if parts = [] then "0" else String.intercalate ", " parts
    "Found " ++ toString issues.length ++ " security issue(s): " ++ severity_text ++ " severity."

/-- `BaseSecurityAnalyzer._generate_summary`: the issue-count sentence
followed by the completion banner. -/
def generate_summary (lang : LanguageType) (analyzerName : String)
    (issues : List SecurityIssue) : String :=
  summaryLine issues ++ completionMessage lang analyzerName

/-- Modelled from the spec: the sentence the summary must begin with —
the total count, then the per-severity counts of the non-zero
severities ordered highest severity first, labelled by the lowercase
severity names.  Written only to be compared with `generate_summary`. -/
def specSummaryBegin (issues : List SecurityIssue) : String :=
  if issues = [] then "No security issues detected."
  else
    let nonzero := [SeverityLevel.CRITICAL, .HIGH, .MEDIUM, .LOW].filter
      (fun sev => countSev issues sev ≠ 0)
    let parts := nonzero.map
      (fun sev => toString (countSev issues sev) ++ " " ++ pyLower sev.value)
    let severity_text := if parts = [] then "0" else String.intercalate ", " parts
    "Found " ++ toString issues.length ++ " security issue(s): " ++ severity_text ++ " severity."

theorem summaryLine_eq_spec (issues : List SecurityIssue) :
    summaryLine issues = specSummaryBegin issues := by
  rw [summaryLine, specSummaryBegin]
  by_cases he : issues = []
  · rw [if_pos he, if_pos he]
  · rw [if_neg he, if_neg he]
    by_cases hc : countSev issues .CRITICAL ≠ 0 <;>
      by_cases hh : countSev issues .HIGH ≠ 0 <;>
        by_cases hm : countSev issues .MEDIUM ≠ 0 <;>
          by_cases hl : countSev issues .LOW ≠ 0 <;>
            simp [hc, hh, hm, hl, List.filter, pyLower, charLower,
              SeverityLevel.value, String.intercalate,
              show (" " ++ "critical" : String) = " critical" from rfl,
              show (" " ++ "high" : String) = " high" from rfl,
              show (" " ++ "medium" : String) = " medium" from rfl,
              show (" " ++ "low" : String) = " low" from rfl,
              String.append_assoc]

/-- C9: every summary begins with the count sentence the spec
describes: for a non-empty issue list the total count and the non-zero
per-severity counts ordered highest first, for the empty list the fixed
no-issues sentence; at the example list [CRITICAL, HIGH, HIGH, LOW] the
prefix is exactly the one the spec quotes. -/
theorem C9_summary_prefix :
    (∀ (lang : LanguageType) (an : String) (issues : List SecurityIssue),
      ∃ rest, generate_summary lang an issues = specSummaryBegin issues ++ rest) ∧
    (∃ rest,
      generate_summary .JAVA "JavaSecurityAnalyzer"
        [{ id := "1", title := "t", description := "d", severity := .CRITICAL },
         { id := "2", title := "t", description := "d", severity := .HIGH },
         { id := "3", title := "t", description := "d", severity := .HIGH },
         { id := "4", title := "t", description := "d", severity := .LOW }] =
        "Found 4 security issue(s): 1 critical, 2 high, 1 low severity." ++ rest) ∧
    (∃ rest, generate_summary .JAVA "JavaSecurityAnalyzer" [] =
        "No security issues detected." ++ rest) := by
  refine ⟨?_, ?_, ?_⟩
  · intro lang an issues
    exact ⟨completionMessage lang an, by rw [generate_summary, summaryLine_eq_spec]⟩
  · exact ⟨completionMessage .JAVA "JavaSecurityAnalyzer", by rfl⟩
  · exact ⟨completionMessage .JAVA "JavaSecurityAnalyzer", by rfl⟩

/-- The success-path `analysis_metadata` dict of `analyze`. -/
def successMetadata (issues : List SecurityIssue) (analyzerName : String) :
    List (String × MetaV) :=
  [("total_issues", .int issues.length),
   ("critical_count", .int (countSev issues .CRITICAL)),
   ("high_count", .int (countSev issues .HIGH)),
   ("medium_count", .int (countSev issues .MEDIUM)),
   ("low_count", .int (countSev issues .LOW)),
   ("analyzer", .str analyzerName),
   ("status", .str "COMPLETED"),
   ("completion_message", .str "âœ… Analysis finished successfully")]

/-- Stages 1–3 of `analyze`: preprocess, prompt lookup, LLM gateway;
each may raise (modelled with `Except`).  Returns the raw LLM response. -/
def stages123 (pre : String → Except String String) (promptF : Except String String)
    (llm : String → String → Except String String) (code : String) :
    Except String String := do
  let preprocessed ← pre code
  let prompt ← promptF
  llm preprocessed prompt

/-- Stages 1–4 of `analyze`: stages 1–3 then normalization. -/
def stages1234 (pre : String → Except String String) (promptF : Except String String)
    (llm : String → String → Except String String)
    (parseF : String → Except String (List JValue)) (code : String) :
    Except String (List JValue) := do
  let response ← stages123 pre promptF llm code
  parseF response

/-- `BaseSecurityAnalyzer.analyze` with the stage behaviours abstracted
(the subclass hooks `preprocess_code`/`get_security_rules_prompt`, the
network gateway, and the normalizer): the whole `try` body either
completes, or its first exception is converted into an error
`AnalysisResult`. -/
def analyzeWith (lang : LanguageType) (analyzerName : String) (freshId : Nat → String)
    (pre : String → Except String String) (promptF : Except String String)
    (llm : String → String → Except String String)
    (parseF : String → Except String (List JValue))
    (code : String) (file_path : Option String) : AnalysisResult :=
  match stages1234 pre promptF llm parseF code with
  | .ok issues_data =>
    let issues := create_security_issues freshId issues_data file_path
    { language := lang, issues := issues,
      summary := generate_summary lang analyzerName issues,
      analysis_metadata := successMetadata issues analyzerName }
  | .error e =>
    { language := lang, issues := [],
      summary := "Analysis failed: " ++ e,
      analysis_metadata := [("error", .str e), ("analyzer", .str analyzerName)] }

/-- `analyze` with the concrete in-repo stage implementations for
preprocessing (stage 1) and normalization (stage 4); the prompt and the
LLM call stay abstract (subclass string and network). -/
def analyze (lang : LanguageType) (analyzerName : String) (freshId : Nat → String)
    (promptF : Except String String) (llm : String → String → Except String String)
    (code : String) (file_path : Option String) : AnalysisResult :=
  analyzeWith lang analyzerName freshId (fun c => .ok (preprocess_code c)) promptF llm
    (fun r => .ok (parse_llm_response r)) code file_path

/-- C1: for every behaviour of the four stages `analyze` returns an
`AnalysisResult` (exceptions never propagate — the function is total),
and whenever stages 1–3 raise `e` the result carries an empty issue
list, the failure-naming summary, and metadata with the error text. -/
theorem C1_analyze_never_propagates (lang : LanguageType) (analyzerName : String)
    (freshId : Nat → String) (pre : String → Except String String)
    (promptF : Except String String) (llm : String → String → Except String String)
    (parseF : String → Except String (List JValue)) (code : String)
    (file_path : Option String) :
    (∃ r : AnalysisResult,
      analyzeWith lang analyzerName freshId pre promptF llm parseF code file_path = r) ∧
    (∀ e, stages123 pre promptF llm code = .error e →
      analyzeWith lang analyzerName freshId pre promptF llm parseF code file_path =
        { language := lang, issues := [],
          summary := "Analysis failed: " ++ e,
          analysis_metadata := [("error", .str e), ("analyzer", .str analyzerName)] }) := by
  refine ⟨⟨_, rfl⟩, ?_⟩
  intro e he
  have h1234 : stages1234 pre promptF llm parseF code = .error e := by
    rw [stages1234]
    simp [he, Bind.bind, Except.bind]
  rw [analyzeWith, h1234]

/-- Witness for C1: a gateway failure (network exception text) becomes
an error result. -/
theorem C1_witness :
    analyzeWith .JAVA "JavaSecurityAnalyzer" (fun _ => "SEC-0")
      (fun c => .ok (preprocess_code c)) (.ok "prompt")
      (fun _ _ => .error "LLM analysis failed: connection refused")
      (fun r => .ok (parse_llm_response r)) "class A {}" none =
      { language := .JAVA, issues := [],
        summary := "Analysis failed: LLM analysis failed: connection refused",
        analysis_metadata :=
          [("error", .str "LLM analysis failed: connection refused"),
           ("analyzer", .str "JavaSecurityAnalyzer")] } := by
  exact (C1_analyze_never_propagates .JAVA "JavaSecurityAnalyzer" (fun _ => "SEC-0")
    (fun c => .ok (preprocess_code c)) (.ok "prompt")
    (fun _ _ => .error "LLM analysis failed: connection refused")
    (fun r => .ok (parse_llm_response r)) "class A {}" none).2
    "LLM analysis failed: connection refused" rfl

/-! ## `LanguageDetector` (`language_detector.py`)

The signature regexes use only literals, character classes (`\w`, `\s`,
ranges, negation), `+`/`*`/`?` over classes or groups, alternation of
literals, and the word-boundary assertion `\b` (no `^`/`$`, so the
`re.MULTILINE` flag is inert).  `re.search` is existential — it is
truthy iff a match exists somewhere — so greedy/lazy distinctions are
irrelevant and the engine below decides existence of a match by
backtracking.  `\w` and `\s` are modelled on their ASCII behaviour, per
the conventions above. -/

/-- One alternative inside a character class. -/
inductive CItem where
  | ch (c : Char)
  | range (a b : Char)
  | wclass
  | sclass
deriving Repr

/-- A character class: alternatives plus a negation flag. -/
structure CCls where
  neg : Bool
  items : List CItem
deriving Repr

/-- `\w` membership (ASCII): letters, digits, underscore. -/
def isWordChar (c : Char) : Bool :=
  ('a' ≤ c && c ≤ 'z') || ('A' ≤ c && c ≤ 'Z') || ('0' ≤ c && c ≤ '9') || c = '_'

/-- `\s` membership (ASCII): space, tab, newline, CR, VT, FF. -/
def isSpaceChar (c : Char) : Bool :=
  c = ' ' || c = '\t' || c = '\n' || c = '\r' || c = '\x0b' || c = '\x0c'

def itemMatch : CItem → Char → Bool
  | .ch c, x => x = c
  | .range a b, x => a ≤ x && x ≤ b
  | .wclass, x => isWordChar x
  | .sclass, x => isSpaceChar x

def cclsMatch (cc : CCls) (x : Char) : Bool :=
  let m := cc.items.any (fun it => itemMatch it x)
  if cc.neg then !m else m

/-- Regex abstract syntax covering the detector's patterns:
`star` ranges only over character classes, which is all these patterns
use (`(...)? ` groups are encoded with `alt`). -/
inductive Rx where
  | eps
  | cls (c : CCls)
  | seq (a b : Rx)
  | alt (a b : Rx)
  | star (c : CCls)
  | wb
deriving Repr

/-- Match zero or more characters of a class, then try the
continuation after each prefix (existential semantics). -/
def starRun (c : CCls) (p : Option Char) (s : List Char)
    (k : Option Char → List Char → Bool) : Bool :=
  k p s ||
    match s with
    | [] => false
    | x :: xs => cclsMatch c x && starRun c (some x) xs k

/-- The `\b` assertion: word-ness differs across the current position
(`p` is the previous character, `none` at the start of the text). -/
def atWb (p : Option Char) (s : List Char) : Bool :=
  (match p with | some c => isWordChar c | none => false) !=
    (match s with | x :: _ => isWordChar x | [] => false)

/-- Does `r` match some prefix of `s` (with previous character `p`),
continuing with `k`? -/
def mrx : Rx → Option Char → List Char → (Option Char → List Char → Bool) → Bool
  | .eps, p, s, k => k p s
  | .cls c, _, s, k =>
    match s with
    | [] => false
    | x :: xs => cclsMatch c x && k (some x) xs
  | .seq a b, p, s, k => mrx a p s (fun p2 s2 => mrx b p2 s2 k)
  | .alt a b, p, s, k => mrx a p s k || mrx b p s k
  | .star c, p, s, k => starRun c p s k
  | .wb, p, s, k => atWb p s && k p s

/-- `re.search` truthiness: a match exists at some start position. -/
def searchFrom (r : Rx) (p : Option Char) (s : List Char) : Bool :=
  mrx r p s (fun _ _ => true) ||
    match s with
    | [] => false
    | x :: xs => searchFrom r (some x) xs

/-- `bool(re.search(pattern, code))`. -/
def reSearch (r : Rx) (s : String) : Bool := searchFrom r none s.data

/-- A single literal character. -/
def rch (c : Char) : Rx := .cls ⟨false, [.ch c]⟩

/-- A literal string. -/
def rlit (s : String) : Rx := s.data.foldr (fun c acc => .seq (rch c) acc) .eps

/-- Concatenation of a pattern list. -/
def rseq (l : List Rx) : Rx := l.foldr .seq .eps

/-- `\w`-class, `\s`-class, `.` (anything but newline). -/
def wcls : CCls := ⟨false, [.wclass]⟩

def scls : CCls := ⟨false, [.sclass]⟩

def dotc : CCls := ⟨true, [.ch '\n']⟩

/-- `\s+`, `\s*`, `\w+`, `.*`. -/
def wsP : Rx := .seq (.cls scls) (.star scls)

def wsS : Rx := .star scls

def wP : Rx := .seq (.cls wcls) (.star wcls)

def dotS : Rx := .star dotc

/-- `['\"]`. -/
def quoteCls : Rx := .cls ⟨false, [.ch '\'', .ch '"']⟩

/-- The per-language signature regexes of `LANGUAGE_PATTERNS`, in
source order. -/
def langPatterns : LanguageType → List Rx
  | .CSHARP =>
    [rseq [.wb, rlit "using", wsP, rlit "System", .wb],
     rseq [.wb, rlit "namespace", wsP, wP],
     rseq [.wb, rlit "public", wsP, rlit "class", wsP, wP],
     rseq [.wb, rlit "private", wsP, wP, wsP, wP, wsS, rch '{'],
     rseq [rch '[', rlit "assembly:", wsS, wP, rch ']']]
  | .REACT_TYPESCRIPT =>
    [rseq [.wb, rlit "import", wsP, dotS, wsP, rlit "from", wsP, quoteCls, rlit "react", quoteCls],
     rseq [.wb, rlit "export", wsP, dotS, rlit "React.FC"],
     rseq [.wb, rlit "interface", wsP, wP, rlit "Props"],
     rseq [rch ':', wsS, rlit "React.ReactNode"],
     rseq [rch '<', dotS, rch '>', wsS, rch '(', dotS, rch ')', wsS, rlit "=>", wsS, rch '{']]
  | .REACT_JAVASCRIPT =>
    [rseq [.wb, rlit "import", wsP, dotS, wsP, rlit "from", wsP, quoteCls, rlit "react", quoteCls],
     rseq [.wb, rlit "export", wsP, rlit "default", wsP, rlit "function"],
     rseq [.wb, rlit "React.createElement"],
     rseq [rch '<', wP, .star ⟨true, [.ch '>']⟩, rch '>', dotS, rch '<', rch '/', wP, rch '>']]
  | .JAVA =>
    [rseq [.wb, rlit "package", wsP, .cls ⟨false, [.range 'a' 'z']⟩,
       .star ⟨false, [.range 'a' 'z', .range '0' '9', .ch '_', .ch '.']⟩, wsS, rch ';'],
     rseq [.wb, rlit "import", wsP, .alt (rlit "java") (.alt (rlit "javax") (rlit "org")), rch '.'],
     rseq [.wb, rlit "public", wsP,
       .alt (rlit "class") (.alt (rlit "interface") (rlit "enum")), wsP, wP],
     rseq [rch '@',
       .alt (rlit "Override") (.alt (rlit "Autowired") (.alt (rlit "Entity")
         (.alt (rlit "Controller") (.alt (rlit "Service") (rlit "Repository")))))],
     rseq [.wb, .alt (rlit "public") (.alt (rlit "private") (rlit "protected")), wsP,
       .alt (rseq [rlit "static", wsP]) .eps,
       .alt (rlit "void") (.alt (rlit "int") (.alt (rlit "String") (rlit "boolean"))), wsP,
       wP, wsS, rch '(']]
  | .UNKNOWN => []

/-- `LANGUAGE_PATTERNS` in dict insertion order. -/
def LANGUAGE_PATTERNS : List (LanguageType × List Rx) :=
  [(.CSHARP, langPatterns .CSHARP),
   (.REACT_TYPESCRIPT, langPatterns .REACT_TYPESCRIPT),
   (.REACT_JAVASCRIPT, langPatterns .REACT_JAVASCRIPT),
   (.JAVA, langPatterns .JAVA)]

/-- Number of a language's signature regexes matching the code. -/
def patternScore (code : String) (patterns : List Rx) : Nat :=
  patterns.countP (fun p => reSearch p code)

/-- `LanguageDetector._detect_by_patterns`: score every non-Unknown
language (the `scores` dict and `LANGUAGE_PATTERNS` share the
enumeration order), take `max(scores.items(), key=...)` — Python's
`max` keeps the first maximal item — and return Unknown on an all-zero
score. -/
def detect_by_patterns (code : String) : LanguageType :=
  let scores := LANGUAGE_PATTERNS.map (fun lp => (lp.1, patternScore code lp.2))
  match scores with
  | [] => .UNKNOWN
  | first :: rest =>
    let max_lang := rest.foldl (fun b x => if x.2 > b.2 then x else b) first
    if max_lang.2 > 0 then max_lang.1 else .UNKNOWN

/-- `EXTENSION_MAP` in dict insertion order. -/
def EXTENSION_MAP : List (String × LanguageType) :=
  [(".cs", .CSHARP), (".tsx", .REACT_TYPESCRIPT), (".ts", .REACT_TYPESCRIPT),
   (".jsx", .REACT_JAVASCRIPT), (".js", .REACT_JAVASCRIPT), (".java", .JAVA)]

/-- `str.endswith`. -/
def strEndsWith (s suf : String) : Bool := decide (suf.data <:+ s.data)

/-- The `for ext, lang in EXTENSION_MAP.items()` loop of
`_detect_by_extension`, over the lowered path. -/
def extLookup : List (String × LanguageType) → String → LanguageType
  | [], _ => .UNKNOWN
  | (ext, lang) :: rest, lowered =>
    if strEndsWith lowered ext then lang else extLookup rest lowered

/-- `LanguageDetector._detect_by_extension`. -/
def detect_by_extension (file_path : String) : LanguageType :=
  extLookup EXTENSION_MAP (pyLower file_path)

/-- `LanguageDetector.detect_language`: extension first (only when
`file_path` is truthy), pattern fallback. -/
def detect_language (code : String) (file_path : Option String) : LanguageType :=
  match file_path with
  | some fp =>
    if fp ≠ "" then
      let lang := detect_by_extension fp
      if lang ≠ .UNKNOWN then lang else detect_by_patterns code
    else detect_by_patterns code
  | none => detect_by_patterns code

theorem endsWith_excl {s : String} (e1 e2 : String) (h1 : strEndsWith s e1 = true)
    (hno : ¬ (e1.data <:+ e2.data) ∧ ¬ (e2.data <:+ e1.data)) :
    strEndsWith s e2 = false := by
  rw [strEndsWith] at h1 ⊢
  have h1' : e1.data <:+ s.data := of_decide_eq_true h1
  rw [decide_eq_false_iff_not]
  intro h2
  rcases List.suffix_or_suffix_of_suffix h1' h2 with h | h
  · exact hno.1 h
  · exact hno.2 h

/-- C4: a registered extension (matched case-insensitively against the
path) determines the detected language regardless of code content. -/
theorem C4_extension_wins (code : String) (fp ext : String) (lang : LanguageType)
    (hmem : (ext, lang) ∈ EXTENSION_MAP)
    (hsuf : strEndsWith (pyLower fp) ext = true) :
    detect_language code (some fp) = lang := by
  simp only [EXTENSION_MAP, List.mem_cons, List.mem_singleton, Prod.mk.injEq] at hmem
  rcases hmem with ⟨rfl, rfl⟩ | ⟨rfl, rfl⟩ | ⟨rfl, rfl⟩ | ⟨rfl, rfl⟩ | ⟨rfl, rfl⟩ |
    (⟨rfl, rfl⟩ | h)
  · have hne : fp ≠ "" := fun h => absurd (h ▸ hsuf) (by decide)
    rw [detect_language, if_pos hne]
    simp [detect_by_extension, EXTENSION_MAP, extLookup, hsuf]
  · have hne : fp ≠ "" := fun h => absurd (h ▸ hsuf) (by decide)
    rw [detect_language, if_pos hne]
    have x1 := endsWith_excl ".tsx" ".cs" hsuf (by decide)
    simp [detect_by_extension, EXTENSION_MAP, extLookup, hsuf, x1]
  · have hne : fp ≠ "" := fun h => absurd (h ▸ hsuf) (by decide)
    rw [detect_language, if_pos hne]
    have x1 := endsWith_excl ".ts" ".cs" hsuf (by decide)
    have x2 := endsWith_excl ".ts" ".tsx" hsuf (by decide)
    simp [detect_by_extension, EXTENSION_MAP, extLookup, hsuf, x1, x2]
  · have hne : fp ≠ "" := fun h => absurd (h ▸ hsuf) (by decide)
    rw [detect_language, if_pos hne]
    have x1 := endsWith_excl ".jsx" ".cs" hsuf (by decide)
    have x2 := endsWith_excl ".jsx" ".tsx" hsuf (by decide)
    have x3 := endsWith_excl ".jsx" ".ts" hsuf (by decide)
    simp [detect_by_extension, EXTENSION_MAP, extLookup, hsuf, x1, x2, x3]
  · have hne : fp ≠ "" := fun h => absurd (h ▸ hsuf) (by decide)
    rw [detect_language, if_pos hne]
    have x1 := endsWith_excl ".js" ".cs" hsuf (by decide)
    have x2 := endsWith_excl ".js" ".tsx" hsuf (by decide)
    have x3 := endsWith_excl ".js" ".ts" hsuf (by decide)
    have x4 := endsWith_excl ".js" ".jsx" hsuf (by decide)
    simp [detect_by_extension, EXTENSION_MAP, extLookup, hsuf, x1, x2, x3, x4]
  · have hne : fp ≠ "" := fun h => absurd (h ▸ hsuf) (by decide)
    rw [detect_language, if_pos hne]
    have x1 := endsWith_excl ".java" ".cs" hsuf (by decide)
    have x2 := endsWith_excl ".java" ".tsx" hsuf (by decide)
    have x3 := endsWith_excl ".java" ".ts" hsuf (by decide)
    have x4 := endsWith_excl ".java" ".jsx" hsuf (by decide)
    have x5 := endsWith_excl ".java" ".js" hsuf (by decide)
    simp [detect_by_extension, EXTENSION_MAP, extLookup, hsuf, x1, x2, x3, x4, x5]
  · exact absurd h (by simp)

/-- Witness for C4: a C# code snippet with an uppercase `.JAVA` path is
detected as Java. -/
theorem C4_witness : detect_language "using System;" (some "Main.JAVA") = .JAVA :=
  C4_extension_wins "using System;" "Main.JAVA" ".java" .JAVA (by decide) (by decide)

/-- Modelled from the spec: score each non-Unknown language by its
signature-regex hits; return Unknown when every score is zero, else the
language with the highest score, ties broken by enumeration
declaration order (first-declared wins).  Written only to be compared
with `detect_by_patterns`. -/
def detectByPatternsSpec (code : String) : LanguageType :=
  let s1 := patternScore code (langPatterns .CSHARP)
  let s2 := patternScore code (langPatterns .REACT_TYPESCRIPT)
  let s3 := patternScore code (langPatterns .REACT_JAVASCRIPT)
  let s4 := patternScore code (langPatterns .JAVA)
  if s1 = 0 ∧ s2 = 0 ∧ s3 = 0 ∧ s4 = 0 then .UNKNOWN
  else if s1 ≥ s2 ∧ s1 ≥ s3 ∧ s1 ≥ s4 then .CSHARP
  else if s2 > s1 ∧ s2 ≥ s3 ∧ s2 ≥ s4 then .REACT_TYPESCRIPT
  else if s3 > s1 ∧ s3 > s2 ∧ s3 ≥ s4 then .REACT_JAVASCRIPT
  else .JAVA

/-- C5: `_detect_by_patterns` implements the spec's scoring rule —
Unknown on all-zero scores, otherwise the highest-scoring language with
first-declared tie-break. -/
theorem C5_patterns_follow_spec (code : String) :
    detect_by_patterns code = detectByPatternsSpec code := by
  rw [detect_by_patterns, detectByPatternsSpec]
  simp only [LANGUAGE_PATTERNS, List.map_cons, List.map_nil]
  generalize patternScore code (langPatterns .CSHARP) = s1
  generalize patternScore code (langPatterns .REACT_TYPESCRIPT) = s2
  generalize patternScore code (langPatterns .REACT_JAVASCRIPT) = s3
  generalize patternScore code (langPatterns .JAVA) = s4
  simp only [List.foldl_cons, List.foldl_nil]
  dsimp only
  split_ifs <;> first | rfl | (exfalso; omega)

end AeyeGuard
